import Mathlib

/-!
Shallow embedding of the proxy validation engine of `src/proxy_scraper.py`
(class `ProxyValidator`).  Proxy addresses and source URLs are identity keys
and are modelled as Lean `String`s; functions that do character-level work on
file or response text model Python strings as `List Char`.  Python sets
become `Finset`, wall-clock instants become integers on an abstract timeline,
and the external `datetime.fromisoformat` parser is an abstract parameter
`iso : List Char -> Option Int` (a capability, like the HTTP client).
-/

namespace Validity

/-- State of the dead-proxy ledger: the in-memory set `dead_proxies`, the
in-memory timestamp map `dead_proxies_with_dates` (a Python dict; later
assignments shadow earlier ones, modelled by consing), and the durable
`dead_proxies.txt` appends modelled as the list of `(address, timestamp)`
records appended so far. -/
structure Ledger where
  dead_proxies : Finset String
  dead_proxies_with_dates : List (String × Int)
  file : List (String × Int)
  deriving DecidableEq

/-- Model of `ProxyValidator.save_dead_proxy` (proxy_scraper.py lines
208-221): if the proxy is not yet in the in-memory set, add it with the
current time and append exactly one record to the durable file; otherwise do
nothing at all. -/
def save_dead_proxy (now : Int) (proxy : String) (st : Ledger) : Ledger :=
  if proxy ∈ st.dead_proxies then st
  else
    { dead_proxies := insert proxy st.dead_proxies
      dead_proxies_with_dates := (proxy, now) :: st.dead_proxies_with_dates
      file := st.file ++ [(proxy, now)] }

/-- Outcome of one `requests.get` probe attempt inside `is_proxy_alive`: an
HTTP response with a status code, a `requests.RequestException` (caught in
the loop, the next test URL is tried), or any other exception (propagates to
the outer handler). -/
inductive NetOutcome where
  | ok (status : Nat)
  | reqExc
  | exc
  deriving DecidableEq

/-- Observable effects of one `is_proxy_alive` call: the returned boolean,
the statuses written to the validation log by `log_proxy_validation`, whether
`save_dead_proxy` was called, how many network attempts were started, and
whether the call returned through a shutdown (cancellation) branch. -/
structure CheckEffects where
  result : Bool
  logs : List String
  markedDead : Bool
  attemptsMade : Nat
  cancelled : Bool
  deriving DecidableEq

/-- Model of the `for test_url in self.test_urls[:2]` loop of
`is_proxy_alive` (proxy_scraper.py lines 260-295) together with the code
after it.  `polls` numbers the shutdown polls, `made` counts network attempts
already started.  A 200 response logs "alive" and returns `true`; a non-200
response or a `RequestException` moves on to the next URL; any other
exception reaches the outer handler, which logs "error" and marks the proxy
dead; exhausting all URLs logs "dead" and marks the proxy dead. -/
def probeLoop (shutdown : Nat → Bool) : List NetOutcome → Nat → Nat → CheckEffects
  | [], _, made => ⟨false, ["dead"], true, made, false⟩
  | o :: rest, polls, made =>
    if shutdown polls then ⟨false, [], false, made, true⟩
    else
      match o with
      | .ok status =>
          if status = 200 then ⟨true, ["alive"], false, made + 1, false⟩
          else probeLoop shutdown rest (polls + 1) (made + 1)
      | .reqExc => probeLoop shutdown rest (polls + 1) (made + 1)
      | .exc => ⟨false, ["error"], true, made + 1, false⟩

/-- Model of `ProxyValidator.is_proxy_alive` (proxy_scraper.py lines
241-295).  `shutdown n` is the value of `self.shutdown_requested` at the
n-th shutdown poll of this call, `dead` is `self.dead_proxies`, and
`outcomes` gives the network outcome each test URL would produce (the code
uses `test_urls[:2]`, so two entries). -/
def is_proxy_alive (shutdown : Nat → Bool) (dead : Finset String) (proxy : String)
    (outcomes : List NetOutcome) : CheckEffects :=
  if shutdown 0 then ⟨false, [], false, 0, true⟩
  else if proxy ∈ dead then ⟨false, [], false, 0, false⟩
  else probeLoop shutdown outcomes 1 0

/-- Applying the ledger side effect of one check to the ledger state:
`save_dead_proxy` runs exactly when the call took a branch that calls it. -/
def applyCheckLedger (now : Int) (proxy : String) (e : CheckEffects) (st : Ledger) : Ledger :=
  if e.markedDead then save_dead_proxy now proxy st else st

/-- One round of per-source slices in
`validate_new_proxies_fair_rotation` (proxy_scraper.py lines 559-572): each
still-non-empty source queue contributes its `[:batch_size]` slice; empty
queues are skipped by the `continue`. -/
def roundTaken (batchSize : Nat) (queues : List (String × List String)) :
    List (String × List String) :=
  queues.filterMap fun sq => if sq.2 = [] then none else some (sq.1, sq.2.take batchSize)

/-- The `sources_in_batch` bookkeeping of a round (proxy_scraper.py line
568): each active source paired with the number of proxies it contributes to
the round. -/
def roundSourcesInBatch (batchSize : Nat) (queues : List (String × List String)) :
    List (String × Nat) :=
  (roundTaken batchSize queues).map fun su => (su.1, su.2.length)

/-- The round batch (proxy_scraper.py line 567): concatenation of the
per-source slices.  The `random.shuffle` of the batch permutes it; the model
keeps the pre-shuffle order, which has the same members. -/
def roundBatch (batchSize : Nat) (queues : List (String × List String)) : List String :=
  ((roundTaken batchSize queues).map (fun su => su.2)).flatten

/-- Queue state after a round (proxy_scraper.py lines 565-572): each
non-empty queue loses its first `batch_size` elements and is deleted from the
rotation when depleted; an already-empty queue is skipped unchanged. -/
def roundNext (batchSize : Nat) (queues : List (String × List String)) :
    List (String × List String) :=
  queues.filterMap fun sq =>
    if sq.2 = [] then some sq
    else
      let rest := sq.2.drop batchSize
      if rest = [] then none else some (sq.1, rest)

/-- All proxies still queued across all sources. -/
def queueElems (queues : List (String × List String)) : List String :=
  (queues.map (fun sq => sq.2)).flatten

/-- The round loop of `validate_new_proxies_fair_rotation`
(proxy_scraper.py lines 551-616), returning the list of round batches.
`fuel` bounds the number of rounds; `fairRotationRounds` below supplies
enough fuel to drain the queues whenever `batchSize` is positive (with
`batchSize = 0` the Python loop would never terminate). -/
def fairRoundsFuel (batchSize : Nat) : Nat → List (String × List String) → List (List String)
  | 0, _ => []
  | fuel + 1, queues =>
    if queues.all (fun sq => sq.2 = []) then []
    else
      let batch := roundBatch batchSize queues
      if batch = [] then []
      else batch :: fairRoundsFuel batchSize fuel (roundNext batchSize queues)

/-- All round batches produced by the fair-rotation loop. -/
def fairRotationRounds (batchSize : Nat) (queues : List (String × List String)) :
    List (List String) :=
  fairRoundsFuel batchSize (queueElems queues).length queues

/-- Building the per-source queues of `validate_new_proxies_fair_rotation`
(proxy_scraper.py lines 522-535): per source, proxies already alive and
proxies in the dead ledger are removed, and the source is kept only if
something remains.  The per-source `random.shuffle` permutes a queue; the
model keeps the `toList` order, which has the same members. -/
def buildSourceQueues (existing dead : Finset String)
    (proxiesBySource : List (String × Finset String)) : List (String × List String) :=
  proxiesBySource.filterMap fun sp =>
    let newProxies := (sp.2 \ existing) \ dead
    if newProxies = ∅ then none else some (sp.1, newProxies.sort (· ≤ ·))

/-- Reading the existing pool file in `validate_existing_proxies`
(proxy_scraper.py lines 341-343): keep lines whose strip is non-empty and
that do not start with "#" (the startswith test runs on the unstripped
line), stripped. -/
def readExistingProxies (lines : List String) : List String :=
  lines.filterMap fun line =>
    if line.trim = "" ∨ line.startsWith "#" = true then none else some line.trim

/-- The pre-filter of `validate_existing_proxies` (proxy_scraper.py lines
350-351): proxies present in the dead ledger are dropped before any work is
submitted to the prober. -/
def proxies_to_check (dead : Finset String) (existingProxies : List String) : List String :=
  existingProxies.filter fun p => p ∉ dead

/-- The proxy lines written by `ProxyValidator.save_proxies`
(proxy_scraper.py lines 628-641): `list(proxies)` of a Python set, one line
per element in some duplicate-free order (modelled as the sorted order). -/
def save_proxies_body (proxies : Finset String) : List String :=
  proxies.sort (· ≤ ·)

/-- The full file written by `save_proxies` (proxy_scraper.py lines
634-641): a three-line `#` header, a blank line, then the proxies. -/
def save_proxies_file (ts : String) (proxyType : String) (proxies : Finset String) :
    List String :=
  ("# Validated " ++ proxyType.toUpper ++ " proxies - Updated: " ++ ts) ::
  ("# Total proxies: " ++ toString (save_proxies_body proxies).length) ::
  "# Format: IP:PORT" :: "" :: save_proxies_body proxies

/-- Step 4 of `ProxyValidator.run` (proxy_scraper.py line 738): the final
pool for a proxy type is the union of the existing survivors and the
fair-rotation survivors. -/
def runTypeFinalPool (aliveExisting aliveNew : Finset String) : Finset String :=
  aliveExisting ∪ aliveNew

/-- The two per-type pool files on disk. -/
structure PoolFiles where
  httpFile : List String
  socks5File : List String
  deriving DecidableEq

/-- Model of `ProxyValidator.save_current_progress` (proxy_scraper.py lines
223-231): under the save lock, each type file is written only when that
type's in-memory alive set is non-empty (Python truthiness of a set). -/
def save_current_progress (ts : String) (aliveHttp aliveSocks5 : Finset String)
    (fs : PoolFiles) : PoolFiles :=
  let fs1 := if aliveHttp = ∅ then fs
    else { fs with httpFile := save_proxies_file ts "http" aliveHttp }
  if aliveSocks5 = ∅ then fs1
  else { fs1 with socks5File := save_proxies_file ts "socks5" aliveSocks5 }

/-- Python `str.strip` with no argument: remove leading and trailing
whitespace from a character list. -/
def pyStrip (s : List Char) : List Char :=
  ((s.dropWhile Char.isWhitespace).reverse.dropWhile Char.isWhitespace).reverse

/-- Python `s.startswith(p)`: the first argument is the pattern, the second
the text. -/
def startsWithChars : List Char → List Char → Bool
  | [], _ => true
  | _ :: _, [] => false
  | p :: ps, c :: cs => p = c && startsWithChars ps cs

/-- Python `s.split(sep)` for a one-character separator: the pieces between
occurrences of `sep`, in order, possibly empty. -/
def splitOnChar (sep : Char) : List Char → List (List Char)
  | [] => [[]]
  | c :: cs =>
    if c = sep then [] :: splitOnChar sep cs
    else
      match splitOnChar sep cs with
      | [] => [[c]]
      | piece :: rest => (c :: piece) :: rest

/-- Python `s.split(sep, 1)` when `sep` occurs in `s`: the text before the
first occurrence and the text after it; `none` when `sep` does not occur
(which is also the Python `sep in s` test). -/
def splitFirstChar (sep : Char) : List Char → Option (List Char × List Char)
  | [] => none
  | c :: cs =>
    if c = sep then some ([], cs)
    else (splitFirstChar sep cs).map fun pr => (c :: pr.1, pr.2)

/-- The scheme stripping of `fetch_proxies_from_source` (proxy_scraper.py
lines 420-428): an elif chain over four known scheme markers. -/
def stripScheme (line : List Char) : List Char :=
  if startsWithChars ("http://".toList) line then line.drop 7
  else if startsWithChars ("https://".toList) line then line.drop 8
  else if startsWithChars ("socks5://".toList) line then line.drop 9
  else if startsWithChars ("socks4://".toList) line then line.drop 9
  else line

/-- Python `str.isdigit` restricted to ASCII text: non-empty and made only
of decimal digits. -/
def pyIsDigit (s : List Char) : Bool :=
  !s.isEmpty && s.all Char.isDigit

/-- The per-line acceptance of `fetch_proxies_from_source`
(proxy_scraper.py lines 415-440): strip the line, drop it when empty, strip
a known scheme, then require exactly one colon (a two-piece colon split),
a host with exactly three dots and an all-digit port.  Returns the accepted
address (the scheme-stripped line). -/
def parseProxyLine (rawLine : List Char) : Option (List Char) :=
  let line := pyStrip rawLine
  if line = [] then none
  else
    let l := stripScheme line
    match splitOnChar ':' l with
    | [ip, port] => if ip.count '.' = 3 && pyIsDigit port then some l else none
    | _ => none

/-- The parsing loop of `fetch_proxies_from_source` over the whole response
text (proxy_scraper.py lines 414-444). -/
def extractProxies (text : List Char) : Finset (List Char) :=
  ((splitOnChar (Char.ofNat 10) text).filterMap parseProxyLine).toFinset

/-- A source fetch as seen by `fetch_proxies_from_source`: either a network
failure or exception, or a response with a status code and a body text.
`response.raise_for_status()` raises on 4xx and 5xx status codes. -/
inductive FetchOutcome where
  | failure
  | response (status : Nat) (text : List Char)

/-- Model of `ProxyValidator.fetch_proxies_from_source` (proxy_scraper.py
lines 404-448): every exception — a network failure or the error raised by
`raise_for_status` on a non-success status — is caught by the enclosing
handler, which logs and returns the empty set; nothing propagates to the
caller. -/
def fetch_proxies_from_source : FetchOutcome → Finset (List Char)
  | .failure => ∅
  | .response status text => if 400 ≤ status then ∅ else extractProxies text

/-- The retention cutoff of `load_dead_proxies` (proxy_scraper.py lines
142-143): thirty days before the current instant, on a timeline of
seconds. -/
def retentionCutoff (now : Int) : Int :=
  now - 30 * 86400

/-- Result state of `load_dead_proxies`: the in-memory set and timestamp
map, the `valid_dead_proxies` rewrite buffer as `(address, timestamp text)`
pairs, and the count of dropped too-old entries. -/
structure DeadLoadState where
  dead_proxies : Finset (List Char)
  dead_proxies_with_dates : List (List Char × Int)
  validEntries : List (List Char × List Char)
  oldCount : Nat
  deriving DecidableEq

/-- Processing of one ledger line by `load_dead_proxies` (proxy_scraper.py
lines 149-181).  `iso` models `datetime.fromisoformat`, returning `none` for
a `ValueError`; `now` is the current instant and `nowText` its
`isoformat()` text.  A kept timestamped entry is added to the set, the map
and the rewrite buffer; a too-old entry only bumps the dropped counter; an
entry with an unparseable or missing timestamp is kept and assigned the
current instant. -/
def processDeadLine (iso : List Char → Option Int) (now : Int) (nowText : List Char)
    (st : DeadLoadState) (rawLine : List Char) : DeadLoadState :=
  let line := pyStrip rawLine
  if line = [] ∨ startsWithChars ['#'] line = true then st
  else
    match splitFirstChar ',' line with
    | some pr =>
      match iso pr.2 with
      | some t =>
        if retentionCutoff now ≤ t then
          { st with
              dead_proxies := insert pr.1 st.dead_proxies
              dead_proxies_with_dates := (pr.1, t) :: st.dead_proxies_with_dates
              validEntries := st.validEntries ++ [(pr.1, pr.2)] }
        else { st with oldCount := st.oldCount + 1 }
      | none =>
        { st with
            dead_proxies := insert pr.1 st.dead_proxies
            dead_proxies_with_dates := (pr.1, now) :: st.dead_proxies_with_dates
            validEntries := st.validEntries ++ [(pr.1, nowText)] }
    | none =>
      { st with
          dead_proxies := insert line st.dead_proxies
          dead_proxies_with_dates := (line, now) :: st.dead_proxies_with_dates
          validEntries := st.validEntries ++ [(line, nowText)] }

/-- Model of `ProxyValidator.load_dead_proxies` (proxy_scraper.py lines
135-192) over the lines of `dead_proxies.txt`. -/
def load_dead_proxies (iso : List Char → Option Int) (now : Int) (nowText : List Char)
    (lines : List (List Char)) : DeadLoadState :=
  lines.foldl (processDeadLine iso now nowText) ⟨∅, [], [], 0⟩

/-- The header block written by `_rewrite_dead_proxies_file`
(proxy_scraper.py lines 198-202): four comment lines and a blank line. -/
def deadFileHeader (nowText : List Char) : List (List Char) :=
  ("# Dead Proxies Database with Timestamps".toList) ::
  ("# Format: proxy_ip:port,timestamp".toList) ::
  ("# Auto-cleanup: Entries older than 30 days are removed".toList) ::
  (("# Last cleaned: ".toList) ++ nowText) ::
  [[]]

/-- The dead-proxies file after `load_dead_proxies`: rewritten from the
surviving entries when at least one too-old entry was dropped
(proxy_scraper.py lines 183-185 and 194-204), otherwise left as it was. -/
def deadFileAfterLoad (iso : List Char → Option Int) (now : Int) (nowText : List Char)
    (lines : List (List Char)) : List (List Char) :=
  let st := load_dead_proxies iso now nowText lines
  if st.oldCount = 0 then lines
  else deadFileHeader nowText ++ st.validEntries.map fun e => e.1 ++ (',' :: e.2)

/-- The address a ledger line contributes on load: the part before the first
comma, or the whole stripped line when it has no comma; blank lines and
comment lines contribute nothing. -/
def deadLineAddr (rawLine : List Char) : Option (List Char) :=
  let line := pyStrip rawLine
  if line = [] ∨ startsWithChars ['#'] line = true then none
  else
    match splitFirstChar ',' line with
    | some pr => some pr.1
    | none => some line

/-- A ledger line is too old when it parses as `address,timestamp` with a
timestamp strictly before the retention cutoff; `load_dead_proxies` drops
such lines. -/
def deadLineIsOld (iso : List Char → Option Int) (now : Int) (rawLine : List Char) : Bool :=
  let line := pyStrip rawLine
  if line = [] ∨ startsWithChars ['#'] line = true then false
  else
    match splitFirstChar ',' line with
    | some pr =>
      match iso pr.2 with
      | some t => decide (t < retentionCutoff now)
      | none => false
    | none => false

/-- A ledger line is a legacy line when it has content but no parseable
timestamp: either no comma at all, or a timestamp text that
`datetime.fromisoformat` rejects. -/
def deadLineIsLegacy (iso : List Char → Option Int) (rawLine : List Char) : Bool :=
  let line := pyStrip rawLine
  if line = [] ∨ startsWithChars ['#'] line = true then false
  else
    match splitFirstChar ',' line with
    | some pr => (iso pr.2).isNone
    | none => true

/-! ## Claim C3: idempotence of dead-marking -/

/-- C3.  `save_dead_proxy` is idempotent: for an address not yet recorded,
calling it twice grows the in-memory dead set by exactly one (not two), the
second call changes nothing, and exactly one record is durably appended;
calling it on an address already present is a complete no-op. -/
theorem save_dead_proxy_idempotent (st : Ledger) (proxy : String) (t₁ t₂ : Int)
    (h : proxy ∉ st.dead_proxies) :
    save_dead_proxy t₂ proxy (save_dead_proxy t₁ proxy st) = save_dead_proxy t₁ proxy st ∧
    (save_dead_proxy t₁ proxy st).dead_proxies.card = st.dead_proxies.card + 1 ∧
    (save_dead_proxy t₂ proxy (save_dead_proxy t₁ proxy st)).dead_proxies.card
      = st.dead_proxies.card + 1 ∧
    (save_dead_proxy t₂ proxy (save_dead_proxy t₁ proxy st)).file
      = st.file ++ [(proxy, t₁)] ∧
    (∀ (st' : Ledger) (t : Int), proxy ∈ st'.dead_proxies →
      save_dead_proxy t proxy st' = st') := by
  have h1 : save_dead_proxy t₁ proxy st =
      { dead_proxies := insert proxy st.dead_proxies
        dead_proxies_with_dates := (proxy, t₁) :: st.dead_proxies_with_dates
        file := st.file ++ [(proxy, t₁)] } := by
    simp [save_dead_proxy, h]
  have hnoop : ∀ (st' : Ledger) (t : Int), proxy ∈ st'.dead_proxies →
      save_dead_proxy t proxy st' = st' := by
    intro st' t hmem
    simp [save_dead_proxy, hmem]
  have h2 : save_dead_proxy t₂ proxy (save_dead_proxy t₁ proxy st)
      = save_dead_proxy t₁ proxy st := by
    apply hnoop
    rw [h1]
    exact Finset.mem_insert_self _ _
  have hcard : (save_dead_proxy t₁ proxy st).dead_proxies.card
      = st.dead_proxies.card + 1 := by
    rw [h1]
    exact Finset.card_insert_of_not_mem h
  refine ⟨h2, hcard, ?_, ?_, hnoop⟩
  · rw [h2, hcard]
  · rw [h2, h1]

/-- Witness for C3 at a concrete ledger state. -/
theorem save_dead_proxy_idempotent_witness :
    (save_dead_proxy 5 "1.2.3.4:80" (save_dead_proxy 3 "1.2.3.4:80"
        (Ledger.mk ∅ [] []))).file = [("1.2.3.4:80", (3 : Int))] := by
  have h := save_dead_proxy_idempotent (Ledger.mk ∅ [] []) "1.2.3.4:80" 3 5
    (by decide)
  simpa using h.2.2.2.1

/-! ## Claim C2: merge correctness -/

/-- C2.  The final alive pool of a proxy type is exactly the set union of
the survivors of validating the existing pool and the survivors of
fair-rotation validation, and the persisted proxy lines list each address
at most once. -/
theorem merge_correctness (aliveExisting aliveNew : Finset String) :
    runTypeFinalPool aliveExisting aliveNew = aliveExisting ∪ aliveNew ∧
    (∀ p : String, p ∈ save_proxies_body (runTypeFinalPool aliveExisting aliveNew) ↔
      p ∈ aliveExisting ∨ p ∈ aliveNew) ∧
    (save_proxies_body (runTypeFinalPool aliveExisting aliveNew)).Nodup := by
  refine ⟨rfl, ?_, ?_⟩
  · intro p
    simp [save_proxies_body, runTypeFinalPool, Finset.mem_sort, Finset.mem_union]
  · exact Finset.sort_nodup _ _

/-! ## Claim C10: empty pools are never flushed -/

/-- C10.  The periodic and shutdown flush writes a type pool file only when
that type has a non-empty in-memory alive set: with an empty alive set, that
type file is left untouched. -/
theorem save_progress_leaves_empty_pool_untouched (ts : String)
    (aliveHttp aliveSocks5 : Finset String) (fs : PoolFiles) :
    (aliveHttp = ∅ →
      (save_current_progress ts aliveHttp aliveSocks5 fs).httpFile = fs.httpFile) ∧
    (aliveSocks5 = ∅ →
      (save_current_progress ts aliveHttp aliveSocks5 fs).socks5File = fs.socks5File) := by
  constructor
  · intro h
    by_cases h5 : aliveSocks5 = ∅ <;> simp [save_current_progress, h, h5]
  · intro h
    by_cases hh : aliveHttp = ∅ <;> simp [save_current_progress, h, hh]

/-- Witness for C10 at a concrete file state: the http pool file is left
exactly as it was when the http alive set is empty. -/
theorem save_progress_leaves_empty_pool_untouched_witness :
    (save_current_progress "ts" ∅ {"5.6.7.8:1080"}
        (PoolFiles.mk ["old line"] [])).httpFile = ["old line"] := by
  have h := save_progress_leaves_empty_pool_untouched "ts" ∅ {"5.6.7.8:1080"}
    (PoolFiles.mk ["old line"] [])
  exact h.1 rfl

/-! ## Claim C9: fetch failure yields the empty set -/

/-- C9.  For every failing fetch — a network failure or exception, or a
response whose status makes `raise_for_status` raise — the source fetch
returns the empty candidate set; the model is a total function, so nothing
propagates to the caller. -/
theorem fetch_failure_returns_empty (outcome : FetchOutcome)
    (h : outcome = FetchOutcome.failure ∨
      ∃ status text, outcome = FetchOutcome.response status text ∧ 400 ≤ status) :
    fetch_proxies_from_source outcome = ∅ := by
  rcases h with h | ⟨s, t, rfl, hs⟩
  · rw [h]
    rfl
  · simp [fetch_proxies_from_source, hs]

/-- Witness for C9 at a concrete network failure and at a concrete 503
response. -/
theorem fetch_failure_returns_empty_witness :
    fetch_proxies_from_source FetchOutcome.failure = ∅ ∧
    fetch_proxies_from_source (FetchOutcome.response 503 ("1.2.3.4:80".toList)) = ∅ := by
  constructor
  · exact fetch_failure_returns_empty _ (Or.inl rfl)
  · exact fetch_failure_returns_empty _ (Or.inr ⟨503, _, rfl, by norm_num⟩)

/-! ## Claim C1: fair rotation share bound -/

/-- Membership in the per-round contribution list: an active (non-empty)
source queue contributes its name with the size of its slice. -/
theorem mem_roundSourcesInBatch (batchSize : Nat) (queues : List (String × List String))
    (sq : String × List String) (h : sq ∈ queues) (hne : sq.2 ≠ []) :
    (sq.1, min batchSize sq.2.length) ∈ roundSourcesInBatch batchSize queues := by
  unfold roundSourcesInBatch
  apply List.mem_map.mpr
  refine ⟨(sq.1, sq.2.take batchSize), ?_, by simp [List.length_take]⟩
  unfold roundTaken
  exact List.mem_filterMap.mpr ⟨sq, h, by simp [hne]⟩

/-- Every per-round contribution comes from an active queue and equals the
minimum of the batch size and that queue's residue. -/
theorem roundSourcesInBatch_spec (batchSize : Nat) (queues : List (String × List String))
    (c : String × Nat) (hc : c ∈ roundSourcesInBatch batchSize queues) :
    ∃ q : List String, (c.1, q) ∈ queues ∧ q ≠ [] ∧ c.2 = min batchSize q.length := by
  unfold roundSourcesInBatch at hc
  rcases List.mem_map.mp hc with ⟨su, hsu, hmap⟩
  rcases List.mem_filterMap.mp hsu with ⟨sq, hsq, heq⟩
  by_cases hne : sq.2 = []
  · simp [roundTaken, hne] at heq
  · have heq' : su = (sq.1, sq.2.take batchSize) := by
      simpa [roundTaken, hne] using heq.symm
    refine ⟨sq.2, ?_, hne, ?_⟩
    · rw [← hmap, heq']
      exact hsq
    · rw [← hmap, heq']
      simp [List.length_take]

/-- C1.  In every round, each still-non-empty source queue contributes
exactly `min batchSize residue` addresses (taking all of a residue smaller
than the batch size), so the contributions of any two sources both active in
the round differ by at most `batchSize`. -/
theorem fair_rotation_share_bound (batchSize : Nat) (queues : List (String × List String))
    (src₁ src₂ : String × List String)
    (h₁ : src₁ ∈ queues) (h₂ : src₂ ∈ queues) (hne₁ : src₁.2 ≠ []) (hne₂ : src₂.2 ≠ []) :
    (src₁.1, min batchSize src₁.2.length) ∈ roundSourcesInBatch batchSize queues ∧
    (src₂.1, min batchSize src₂.2.length) ∈ roundSourcesInBatch batchSize queues ∧
    (∀ c ∈ roundSourcesInBatch batchSize queues,
      ∃ q : List String, (c.1, q) ∈ queues ∧ q ≠ [] ∧ c.2 = min batchSize q.length) ∧
    Nat.dist (min batchSize src₁.2.length) (min batchSize src₂.2.length) ≤ batchSize := by
  refine ⟨mem_roundSourcesInBatch batchSize queues src₁ h₁ hne₁,
    mem_roundSourcesInBatch batchSize queues src₂ h₂ hne₂,
    fun c hc => roundSourcesInBatch_spec batchSize queues c hc, ?_⟩
  have hb₁ : min batchSize src₁.2.length ≤ batchSize := Nat.min_le_left _ _
  have hb₂ : min batchSize src₂.2.length ≤ batchSize := Nat.min_le_left _ _
  simp only [Nat.dist]
  omega

/-- Witness for C1 at a concrete pair of queues of sizes 1 and 3 with batch
size 2. -/
theorem fair_rotation_share_bound_witness :
    ("a", min 2 1) ∈ roundSourcesInBatch 2 [("a", ["x"]), ("b", ["y", "z", "w"])] ∧
    Nat.dist (min 2 1) (min 2 3) ≤ 2 := by
  have h := fair_rotation_share_bound 2 [("a", ["x"]), ("b", ["y", "z", "w"])]
    ("a", ["x"]) ("b", ["y", "z", "w"]) (by simp) (by simp) (by simp) (by simp)
  exact ⟨h.1, h.2.2.2⟩

/-! ## Claim C6: ledger members are never probed -/

/-- Unfolding membership in the flattened queue contents. -/
theorem mem_queueElems {queues : List (String × List String)} {p : String} :
    p ∈ queueElems queues ↔ ∃ sq ∈ queues, p ∈ sq.2 := by
  unfold queueElems
  rw [List.mem_flatten]
  constructor
  · rintro ⟨l, hl, hp⟩
    rcases List.mem_map.mp hl with ⟨sq, hsq, rfl⟩
    exact ⟨sq, hsq, hp⟩
  · rintro ⟨sq, hsq, hp⟩
    exact ⟨sq.2, List.mem_map.mpr ⟨sq, hsq, rfl⟩, hp⟩

/-- Every element of a round batch was queued before the round. -/
theorem mem_roundBatch {batchSize : Nat} {queues : List (String × List String)} {p : String}
    (h : p ∈ roundBatch batchSize queues) : p ∈ queueElems queues := by
  unfold roundBatch at h
  rcases List.mem_flatten.mp h with ⟨l, hl, hp⟩
  rcases List.mem_map.mp hl with ⟨su, hsu, rfl⟩
  rcases List.mem_filterMap.mp hsu with ⟨sq, hsq, heq⟩
  by_cases hne : sq.2 = []
  · simp [hne] at heq
  · have heq' : su = (sq.1, sq.2.take batchSize) := by simpa [hne] using heq.symm
    apply mem_queueElems.mpr
    refine ⟨sq, hsq, ?_⟩
    have : p ∈ sq.2.take batchSize := by
      rw [heq'] at hp
      exact hp
    exact List.take_subset _ _ this

/-- The queues only shrink from one round to the next. -/
theorem queueElems_roundNext {batchSize : Nat} {queues : List (String × List String)}
    {p : String} (h : p ∈ queueElems (roundNext batchSize queues)) :
    p ∈ queueElems queues := by
  rcases mem_queueElems.mp h with ⟨sq', hsq', hp⟩
  rcases List.mem_filterMap.mp hsq' with ⟨sq, hsq, heq⟩
  apply mem_queueElems.mpr
  by_cases hne : sq.2 = []
  · refine ⟨sq, hsq, ?_⟩
    have heq' : sq' = sq := by simpa [roundNext, hne] using heq.symm
    rw [heq'] at hp
    exact hp
  · by_cases hrest : sq.2.drop batchSize = []
    · simp [roundNext, hne, hrest] at heq
    · have heq' : sq' = (sq.1, sq.2.drop batchSize) := by
        simpa [roundNext, hne, hrest] using heq.symm
      refine ⟨sq, hsq, ?_⟩
      rw [heq'] at hp
      exact List.drop_subset _ _ hp

/-- Every proxy dispatched in any fair-rotation round was in the initial
queues. -/
theorem mem_fairRoundsFuel (batchSize : Nat) :
    ∀ (fuel : Nat) (queues : List (String × List String)) (batch : List String) (p : String),
      batch ∈ fairRoundsFuel batchSize fuel queues → p ∈ batch → p ∈ queueElems queues := by
  intro fuel
  induction fuel with
  | zero =>
    intro queues batch p h
    simp [fairRoundsFuel] at h
  | succ n ih =>
    intro queues batch p h hp
    rw [fairRoundsFuel] at h
    by_cases hall : queues.all (fun sq => sq.2 = []) = true
    · simp [hall] at h
    · rw [if_neg hall] at h
      by_cases hbe : roundBatch batchSize queues = []
      · simp [hbe] at h
      · rw [if_neg hbe] at h
        rcases List.mem_cons.mp h with rfl | h
        · exact mem_roundBatch hp
        · exact queueElems_roundNext (ih (roundNext batchSize queues) batch p h hp)

/-- Elements of the freshly built source queues avoid both the existing
alive set and the dead ledger. -/
theorem mem_buildSourceQueues {existing dead : Finset String}
    {bySource : List (String × Finset String)} {p : String}
    (h : p ∈ queueElems (buildSourceQueues existing dead bySource)) :
    p ∉ dead ∧ p ∉ existing := by
  rcases mem_queueElems.mp h with ⟨sq, hsq, hp⟩
  rcases List.mem_filterMap.mp hsq with ⟨sp, _, heq⟩
  by_cases hem : (sp.2 \ existing) \ dead = ∅
  · simp [buildSourceQueues, hem] at heq
  · have heq' : sq = (sp.1, ((sp.2 \ existing) \ dead).sort (· ≤ ·)) := by
      simpa [buildSourceQueues, hem] using heq.symm
    rw [heq'] at hp
    have hmem : p ∈ (sp.2 \ existing) \ dead := by
      simpa [Finset.mem_sort] using hp
    rcases Finset.mem_sdiff.mp hmem with ⟨hin, hdead⟩
    exact ⟨hdead, (Finset.mem_sdiff.mp hin).2⟩

/-- C6.  A proxy present in the dead ledger never reaches the network: the
check short-circuits with zero attempts and a not-alive result, the
existing-pool validator filters ledger members out before dispatch, and no
fair-rotation round batch contains a ledger member, because the queues are
built by subtracting the dead set. -/
theorem ledger_members_never_probed :
    (∀ (shutdown : Nat → Bool) (dead : Finset String) (proxy : String)
        (outcomes : List NetOutcome), proxy ∈ dead →
      (is_proxy_alive shutdown dead proxy outcomes).attemptsMade = 0 ∧
      (is_proxy_alive shutdown dead proxy outcomes).result = false) ∧
    (∀ (dead : Finset String) (existingProxies : List String) (p : String),
      p ∈ proxies_to_check dead existingProxies → p ∉ dead) ∧
    (∀ (batchSize : Nat) (existing dead : Finset String)
        (bySource : List (String × Finset String)) (batch : List String) (p : String),
      batch ∈ fairRotationRounds batchSize (buildSourceQueues existing dead bySource) →
      p ∈ batch → p ∉ dead) := by
  refine ⟨?_, ?_, ?_⟩
  · intro shutdown dead proxy outcomes hmem
    cases hs : shutdown 0 <;> simp [is_proxy_alive, hs, hmem]
  · intro dead existingProxies p hp
    have h := List.mem_filter.mp hp
    simpa using h.2
  · intro batchSize existing dead bySource batch p hb hp
    exact (mem_buildSourceQueues (mem_fairRoundsFuel batchSize _ _ batch p hb hp)).1

/-- Witness for C6 at concrete inputs: a ledger member is checked with zero
attempts, a ledger member is filtered out of the existing-pool dispatch, and
a proxy of a concrete round batch is not in the ledger. -/
theorem ledger_members_never_probed_witness :
    (is_proxy_alive (fun _ => false) {"9.9.9.9:80"} "9.9.9.9:80"
        [NetOutcome.ok 200, NetOutcome.ok 200]).attemptsMade = 0 ∧
    "1.1.1.1:80" ∉ ({"9.9.9.9:80"} : Finset String) ∧
    "1.1.1.1:80" ∉ ({"9.9.9.9:80"} : Finset String) := by
  refine ⟨?_, ?_, ?_⟩
  · exact (ledger_members_never_probed.1 (fun _ => false) {"9.9.9.9:80"} "9.9.9.9:80"
      [NetOutcome.ok 200, NetOutcome.ok 200] (by decide)).1
  · exact ledger_members_never_probed.2.1 {"9.9.9.9:80"} ["1.1.1.1:80"] "1.1.1.1:80"
      (by decide)
  · have h1 : (({"1.1.1.1:80"} : Finset String) \ ∅) \ {"9.9.9.9:80"}
        = {"1.1.1.1:80"} := by decide
    have hqueue : buildSourceQueues ∅ {"9.9.9.9:80"} [("src", {"1.1.1.1:80"})]
        = [("src", ["1.1.1.1:80"])] := by
      simp [buildSourceQueues, h1, Finset.sort_singleton]
    have hb : ["1.1.1.1:80"] ∈ fairRotationRounds 50
        (buildSourceQueues ∅ {"9.9.9.9:80"} [("src", {"1.1.1.1:80"})]) := by
      rw [hqueue]
      decide
    exact ledger_members_never_probed.2.2 50 ∅ {"9.9.9.9:80"} [("src", {"1.1.1.1:80"})]
      ["1.1.1.1:80"] "1.1.1.1:80" hb (by decide)

/-! ## Claim C5: one log record per check -/

/-- When the probe loop does not exit through a cancellation branch, it
writes exactly one log record, and a not-alive return marks the proxy
dead. -/
theorem probeLoop_logs_once (shutdown : Nat → Bool) :
    ∀ (outcomes : List NetOutcome) (polls made : Nat),
      (probeLoop shutdown outcomes polls made).cancelled = false →
      (probeLoop shutdown outcomes polls made).logs.length = 1 ∧
      ((probeLoop shutdown outcomes polls made).result = false →
        (probeLoop shutdown outcomes polls made).markedDead = true) := by
  intro outcomes
  induction outcomes with
  | nil =>
    intro polls made h
    simp [probeLoop]
  | cons o rest ih =>
    intro polls made h
    by_cases hs : shutdown polls = true
    · exfalso
      simp [probeLoop, hs] at h
    · have hs' : shutdown polls = false := by simpa using hs
      cases o with
      | ok status =>
        by_cases h200 : status = 200
        · simp [probeLoop, hs', h200]
        · have heq : probeLoop shutdown (NetOutcome.ok status :: rest) polls made
              = probeLoop shutdown rest (polls + 1) (made + 1) := by
            simp [probeLoop, hs', h200]
          rw [heq] at h ⊢
          exact ih (polls + 1) (made + 1) h
      | reqExc =>
        have heq : probeLoop shutdown (NetOutcome.reqExc :: rest) polls made
            = probeLoop shutdown rest (polls + 1) (made + 1) := by
          simp [probeLoop, hs']
        rw [heq] at h ⊢
        exact ih (polls + 1) (made + 1) h
      | exc =>
        simp [probeLoop, hs']

/-- C5 counterexample: the claim that every invocation of the liveness check
produces exactly one log record and marks every not-alive proxy dead fails
at a call made after the shutdown flag is set — that call writes no log
record and returns not-alive without marking the proxy dead. -/
theorem check_always_logs_counterexample :
    ¬ (((is_proxy_alive (fun _ => true) ∅ "1.2.3.4:80"
          [NetOutcome.ok 200, NetOutcome.ok 200]).logs.length = 1) ∧
      ((is_proxy_alive (fun _ => true) ∅ "1.2.3.4:80"
          [NetOutcome.ok 200, NetOutcome.ok 200]).result = false →
        (is_proxy_alive (fun _ => true) ∅ "1.2.3.4:80"
          [NetOutcome.ok 200, NetOutcome.ok 200]).markedDead = true)) := by
  decide

/-- C5 (amended).  Every invocation of the liveness check that is not
short-circuited — the proxy is not a ledger member and the call does not
return through a cancellation branch — produces exactly one ValidationLog
record, and on every such not-alive outcome (dead or error) it also marks
the proxy dead in the ledger. -/
theorem check_logs_exactly_once (shutdown : Nat → Bool) (dead : Finset String)
    (proxy : String) (outcomes : List NetOutcome)
    (hdead : proxy ∉ dead)
    (hcancel : (is_proxy_alive shutdown dead proxy outcomes).cancelled = false) :
    (is_proxy_alive shutdown dead proxy outcomes).logs.length = 1 ∧
    ((is_proxy_alive shutdown dead proxy outcomes).result = false →
      (is_proxy_alive shutdown dead proxy outcomes).markedDead = true) := by
  by_cases hs : shutdown 0 = true
  · exfalso
    simp [is_proxy_alive, hs] at hcancel
  · have hs' : shutdown 0 = false := by simpa using hs
    have heq : is_proxy_alive shutdown dead proxy outcomes
        = probeLoop shutdown outcomes 1 0 := by
      simp [is_proxy_alive, hs', hdead]
    rw [heq] at hcancel ⊢
    exact probeLoop_logs_once shutdown outcomes 1 0 hcancel

/-- Witness for the amended C5 at a concrete all-failing probe: exactly one
log record is written and the dead outcome marks the proxy. -/
theorem check_logs_exactly_once_witness :
    (is_proxy_alive (fun _ => false) ∅ "1.2.3.4:80"
        [NetOutcome.ok 404, NetOutcome.reqExc]).logs.length = 1 ∧
    (is_proxy_alive (fun _ => false) ∅ "1.2.3.4:80"
        [NetOutcome.ok 404, NetOutcome.reqExc]).markedDead = true := by
  have h := check_logs_exactly_once (fun _ => false) ∅ "1.2.3.4:80"
    [NetOutcome.ok 404, NetOutcome.reqExc] (by decide) (by decide)
  exact ⟨h.1, h.2 (by decide)⟩

/-! ## Claim C7: cancellation has no side effects -/

/-- A probe loop that exits through a cancellation branch returns not-alive,
never marks the proxy dead, writes no log record, and has not completed all
endpoint attempts. -/
theorem probeLoop_cancelled_pure (shutdown : Nat → Bool) :
    ∀ (outcomes : List NetOutcome) (polls made : Nat),
      (probeLoop shutdown outcomes polls made).cancelled = true →
      (probeLoop shutdown outcomes polls made).result = false ∧
      (probeLoop shutdown outcomes polls made).markedDead = false ∧
      (probeLoop shutdown outcomes polls made).logs = [] ∧
      (probeLoop shutdown outcomes polls made).attemptsMade < made + outcomes.length := by
  intro outcomes
  induction outcomes with
  | nil =>
    intro polls made h
    simp [probeLoop] at h
  | cons o rest ih =>
    intro polls made h
    by_cases hs : shutdown polls = true
    · refine ⟨?_, ?_, ?_, ?_⟩ <;> simp [probeLoop, hs]
    · have hs' : shutdown polls = false := by simpa using hs
      cases o with
      | ok status =>
        by_cases h200 : status = 200
        · exfalso
          simp [probeLoop, hs', h200] at h
        · have heq : probeLoop shutdown (NetOutcome.ok status :: rest) polls made
              = probeLoop shutdown rest (polls + 1) (made + 1) := by
            simp [probeLoop, hs', h200]
          rw [heq] at h ⊢
          obtain ⟨h1, h2, h3, h4⟩ := ih (polls + 1) (made + 1) h
          refine ⟨h1, h2, h3, ?_⟩
          simp only [List.length_cons]
          omega
      | reqExc =>
        have heq : probeLoop shutdown (NetOutcome.reqExc :: rest) polls made
            = probeLoop shutdown rest (polls + 1) (made + 1) := by
          simp [probeLoop, hs']
        rw [heq] at h ⊢
        obtain ⟨h1, h2, h3, h4⟩ := ih (polls + 1) (made + 1) h
        refine ⟨h1, h2, h3, ?_⟩
        simp only [List.length_cons]
        omega
      | exc =>
        exfalso
        simp [probeLoop, hs'] at h

/-- C7.  Once the liveness check returns through a cancellation path, the
result is not-alive, no endpoint attempts remain completed in full, nothing
is logged, the proxy is not marked dead, and the dead-proxy ledger (both the
in-memory set and the durable file) is left unchanged. -/
theorem cancelled_check_has_no_side_effects (shutdown : Nat → Bool)
    (dead : Finset String) (proxy : String) (outcomes : List NetOutcome)
    (now : Int) (st : Ledger)
    (hc : (is_proxy_alive shutdown dead proxy outcomes).cancelled = true) :
    (is_proxy_alive shutdown dead proxy outcomes).result = false ∧
    (is_proxy_alive shutdown dead proxy outcomes).markedDead = false ∧
    (is_proxy_alive shutdown dead proxy outcomes).logs = [] ∧
    (outcomes ≠ [] →
      (is_proxy_alive shutdown dead proxy outcomes).attemptsMade < outcomes.length) ∧
    applyCheckLedger now proxy (is_proxy_alive shutdown dead proxy outcomes) st = st := by
  by_cases hs : shutdown 0 = true
  · have heq : is_proxy_alive shutdown dead proxy outcomes
        = ⟨false, [], false, 0, true⟩ := by
      simp [is_proxy_alive, hs]
    rw [heq]
    refine ⟨rfl, rfl, rfl, ?_, by simp [applyCheckLedger]⟩
    intro hne
    cases outcomes with
    | nil => exact absurd rfl hne
    | cons a l => simp
  · have hs' : shutdown 0 = false := by simpa using hs
    by_cases hd : proxy ∈ dead
    · exfalso
      simp [is_proxy_alive, hs', hd] at hc
    · have heq : is_proxy_alive shutdown dead proxy outcomes
          = probeLoop shutdown outcomes 1 0 := by
        simp [is_proxy_alive, hs', hd]
      rw [heq] at hc ⊢
      obtain ⟨h1, h2, h3, h4⟩ := probeLoop_cancelled_pure shutdown outcomes 1 0 hc
      refine ⟨h1, h2, h3, fun _ => by simpa using h4, by simp [applyCheckLedger, h2]⟩

/-- Witness for C7 at a concrete check cancelled by an already-set shutdown
flag: the ledger state is untouched. -/
theorem cancelled_check_has_no_side_effects_witness :
    (is_proxy_alive (fun _ => true) ∅ "1.2.3.4:80"
        [NetOutcome.ok 200, NetOutcome.ok 200]).logs = [] ∧
    applyCheckLedger 7 "1.2.3.4:80"
      (is_proxy_alive (fun _ => true) ∅ "1.2.3.4:80"
        [NetOutcome.ok 200, NetOutcome.ok 200])
      (Ledger.mk {"5.5.5.5:80"} [("5.5.5.5:80", 1)] [("5.5.5.5:80", 1)])
      = Ledger.mk {"5.5.5.5:80"} [("5.5.5.5:80", 1)] [("5.5.5.5:80", 1)] := by
  have h := cancelled_check_has_no_side_effects (fun _ => true) ∅ "1.2.3.4:80"
    [NetOutcome.ok 200, NetOutcome.ok 200] 7
    (Ledger.mk {"5.5.5.5:80"} [("5.5.5.5:80", 1)] [("5.5.5.5:80", 1)]) (by decide)
  exact ⟨h.2.2.1, h.2.2.2.2⟩

/-! ## Claim C8: fetch line normalization -/

/-- A colon split is never the empty list of pieces. -/
theorem splitOnChar_ne_nil (sep : Char) : ∀ l : List Char, splitOnChar sep l ≠ [] := by
  intro l
  induction l with
  | nil => simp [splitOnChar]
  | cons c cs ih =>
    by_cases h : c = sep
    · simp [splitOnChar, h]
    · rcases hq : splitOnChar sep cs with _ | ⟨piece, rest⟩
      · exact absurd hq ih
      · simp [splitOnChar, h, hq]

/-- A one-piece split means the separator does not occur. -/
theorem splitOnChar_eq_single_iff (sep : Char) :
    ∀ l b : List Char, splitOnChar sep l = [b] ↔ (l = b ∧ sep ∉ b) := by
  intro l
  induction l with
  | nil =>
    intro b
    constructor
    · intro h
      have hb : ([] : List Char) = b := by simpa [splitOnChar] using h
      exact ⟨hb, by rw [← hb]; simp⟩
    · rintro ⟨hb, -⟩
      rw [← hb]
      simp [splitOnChar]
  | cons c cs ih =>
    intro b
    by_cases h : c = sep
    · constructor
      · intro hsp
        exfalso
        have h1 : ([] : List Char) = b ∧ splitOnChar sep cs = [] := by
          simpa [splitOnChar, h] using hsp
        exact splitOnChar_ne_nil sep cs h1.2
      · rintro ⟨hb, hnb⟩
        exfalso
        apply hnb
        rw [← hb, ← h]
        exact List.mem_cons_self c cs
    · constructor
      · intro hsp
        rcases hq : splitOnChar sep cs with _ | ⟨piece, rest⟩
        · exact absurd hq (splitOnChar_ne_nil sep cs)
        · have hsp' : (c :: piece) :: rest = [b] := by
            simpa [splitOnChar, h, hq] using hsp
          injection hsp' with hb hr
          have hpc : cs = piece ∧ sep ∉ piece := (ih piece).mp (by rw [hq, hr])
          constructor
          · rw [← hb, hpc.1]
          · rw [← hb]
            intro hm
            rcases List.mem_cons.mp hm with heq | hm
            · exact h heq.symm
            · exact hpc.2 hm
      · rintro ⟨hb, hnb⟩
        have hnc : sep ∉ cs := by
          intro hm
          exact hnb (by rw [← hb]; exact List.mem_cons_of_mem _ hm)
        have hcs : splitOnChar sep cs = [cs] := (ih cs).mpr ⟨rfl, hnc⟩
        rw [← hb]
        simp [splitOnChar, h, hcs]

/-- A two-piece split means exactly one occurrence of the separator, with
the two pieces around it. -/
theorem splitOnChar_eq_pair_iff (sep : Char) :
    ∀ l a b : List Char,
      splitOnChar sep l = [a, b] ↔ (l = a ++ sep :: b ∧ sep ∉ a ∧ sep ∉ b) := by
  intro l
  induction l with
  | nil =>
    intro a b
    constructor
    · intro h
      simp [splitOnChar] at h
    · rintro ⟨heq, -, -⟩
      simp at heq
  | cons c cs ih =>
    intro a b
    by_cases h : c = sep
    · constructor
      · intro hsp
        have h1 : ([] : List Char) = a ∧ splitOnChar sep cs = [b] := by
          simpa [splitOnChar, h] using hsp
        obtain ⟨ha, h2⟩ := h1
        obtain ⟨hcs, hnb⟩ := (splitOnChar_eq_single_iff sep cs b).mp h2
        refine ⟨?_, ?_, hnb⟩
        · rw [← ha, ← hcs, h]
          simp
        · rw [← ha]
          simp
      · rintro ⟨heq, hna, hnb⟩
        have ha : a = [] := by
          cases a with
          | nil => rfl
          | cons x xs =>
            exfalso
            rw [List.cons_append] at heq
            injection heq with h1 h2
            apply hna
            rw [← h1, h]
            exact List.mem_cons_self sep xs
        subst ha
        simp only [List.nil_append] at heq
        injection heq with h1 h2
        have hcs : splitOnChar sep cs = [b] :=
          (splitOnChar_eq_single_iff sep cs b).mpr ⟨h2, hnb⟩
        simp [splitOnChar, h, hcs]
    · constructor
      · intro hsp
        rcases hq : splitOnChar sep cs with _ | ⟨piece, rest⟩
        · exact absurd hq (splitOnChar_ne_nil sep cs)
        · have hsp' : (c :: piece) :: rest = [a, b] := by
            simpa [splitOnChar, h, hq] using hsp
          injection hsp' with ha hr
          have hpr : splitOnChar sep cs = [piece, b] := by rw [hq, hr]
          obtain ⟨hcs, hnp, hnb⟩ := (ih piece b).mp hpr
          refine ⟨?_, ?_, hnb⟩
          · rw [← ha, hcs]
            simp
          · rw [← ha]
            intro hm
            rcases List.mem_cons.mp hm with heq | hm
            · exact h heq.symm
            · exact hnp hm
      · rintro ⟨heq, hna, hnb⟩
        cases a with
        | nil =>
          exfalso
          simp only [List.nil_append] at heq
          injection heq with h1 h2
          exact h h1
        | cons x xs =>
          rw [List.cons_append] at heq
          injection heq with h1 h2
          have hna' : sep ∉ xs := fun hm => hna (List.mem_cons_of_mem _ hm)
          have hcs : splitOnChar sep cs = [xs, b] := (ih xs b).mpr ⟨h2, hna', hnb⟩
          have hx : ¬ x = sep := by
            rw [← h1]
            exact h
          rw [h1]
          simp [splitOnChar, hx, hcs]

/-- The acceptance condition as the spec words it: after stripping a known
scheme, the line is exactly one colon separating a host that contains
exactly three dots from an all-digit (hence non-empty) port. -/
def specAcceptsLine (line : List Char) : Prop :=
  ∃ host port : List Char,
    stripScheme line = host ++ ':' :: port ∧ ':' ∉ host ∧ ':' ∉ port ∧
    host.count '.' = 3 ∧ port ≠ [] ∧ port.all Char.isDigit = true

/-- C8.  A source line is accepted if and only if, after stripping and
scheme removal, it is exactly one colon separating a three-dot host from an
all-digit port; the accepted address is the scheme-stripped line; and the
fetched candidate set contains exactly the accepted lines, so every other
line never reaches probing. -/
theorem fetch_line_acceptance (rawLine : List Char) :
    ((parseProxyLine rawLine).isSome ↔ specAcceptsLine (pyStrip rawLine)) ∧
    (∀ accepted : List Char, parseProxyLine rawLine = some accepted →
      accepted = stripScheme (pyStrip rawLine)) ∧
    (∀ text p : List Char, p ∈ extractProxies text ↔
      ∃ line ∈ splitOnChar (Char.ofNat 10) text, parseProxyLine line = some p) := by
  refine ⟨?_, ?_, ?_⟩
  · by_cases hne : pyStrip rawLine = []
    · constructor
      · intro h
        simp [parseProxyLine, hne] at h
      · rintro ⟨host, port, habs, -⟩
        exfalso
        have hstrip : stripScheme ([] : List Char) = [] := by decide
        rw [hne, hstrip] at habs
        simp at habs
    · rcases hq : splitOnChar ':' (stripScheme (pyStrip rawLine)) with _ | ⟨x, rest⟩
      · exact absurd hq (splitOnChar_ne_nil _ _)
      rcases rest with _ | ⟨y, rest2⟩
      · have hp : parseProxyLine rawLine = none := by
          simp [parseProxyLine, hne, hq]
        constructor
        · intro h
          rw [hp] at h
          simp at h
        · rintro ⟨host, port, habs, hnh, hnp, -⟩
          have hpair : splitOnChar ':' (stripScheme (pyStrip rawLine)) = [host, port] :=
            (splitOnChar_eq_pair_iff ':' _ host port).mpr ⟨habs, hnh, hnp⟩
          rw [hq] at hpair
          simp at hpair
      rcases rest2 with _ | ⟨z, rest3⟩
      · have hdecomp := (splitOnChar_eq_pair_iff ':' _ x y).mp hq
        constructor
        · intro h
          have hcond : (x.count '.' = 3 && pyIsDigit y) = true := by
            by_contra hcontra
            have hc : (x.count '.' = 3 && pyIsDigit y) = false :=
              Bool.eq_false_iff.mpr hcontra
            rw [parseProxyLine.eq_def] at h
            simp only [hne, if_neg, hq] at h
            simp [hne, hq, hc] at h
          simp [pyIsDigit] at hcond
          exact ⟨x, y, hdecomp.1, hdecomp.2.1, hdecomp.2.2, hcond.1, hcond.2.1,
            List.all_eq_true.mpr hcond.2.2⟩
        · rintro ⟨host, port, habs, hnh, hnp, h3, hne2, hdig⟩
          have hpair : splitOnChar ':' (stripScheme (pyStrip rawLine)) = [host, port] :=
            (splitOnChar_eq_pair_iff ':' _ host port).mpr ⟨habs, hnh, hnp⟩
          rw [hq] at hpair
          injection hpair with hx hrest
          injection hrest with hy hnil
          have hcond : (x.count '.' = 3 && pyIsDigit y) = true := by
            subst hx
            subst hy
            simp [pyIsDigit, h3, hdig, List.isEmpty_iff, hne2]
          simp [parseProxyLine, hne, hq, hcond]
      · have hp : parseProxyLine rawLine = none := by
          simp [parseProxyLine, hne, hq]
        constructor
        · intro h
          rw [hp] at h
          simp at h
        · rintro ⟨host, port, habs, hnh, hnp, -⟩
          have hpair : splitOnChar ':' (stripScheme (pyStrip rawLine)) = [host, port] :=
            (splitOnChar_eq_pair_iff ':' _ host port).mpr ⟨habs, hnh, hnp⟩
          rw [hq] at hpair
          simp at hpair
  · intro accepted hacc
    by_cases hne : pyStrip rawLine = []
    · simp [parseProxyLine, hne] at hacc
    · rcases hq : splitOnChar ':' (stripScheme (pyStrip rawLine)) with _ | ⟨x, rest⟩
      · exact absurd hq (splitOnChar_ne_nil _ _)
      rcases rest with _ | ⟨y, rest2⟩
      · simp [parseProxyLine, hne, hq] at hacc
      rcases rest2 with _ | ⟨z, rest3⟩
      · by_cases hcond : (x.count '.' = 3 && pyIsDigit y) = true
        · have hp : parseProxyLine rawLine = some (stripScheme (pyStrip rawLine)) := by
            simp [parseProxyLine, hne, hq, hcond]
          rw [hp] at hacc
          exact (Option.some_inj.mp hacc).symm
        · have hc : (x.count '.' = 3 && pyIsDigit y) = false :=
            Bool.eq_false_iff.mpr hcond
          simp [parseProxyLine, hne, hq, hc] at hacc
      · simp [parseProxyLine, hne, hq] at hacc
  · intro text p
    simp [extractProxies, List.mem_toFinset, List.mem_filterMap]

/-- Witness for C8 at a concrete scheme-marked line: the accepted address is
the scheme-stripped stripped line. -/
theorem fetch_line_acceptance_witness :
    parseProxyLine ("socks5://1.2.3.4:8080".toList) = some ("1.2.3.4:8080".toList) ∧
    "1.2.3.4:8080".toList = stripScheme (pyStrip ("socks5://1.2.3.4:8080".toList)) := by
  have h := (fetch_line_acceptance ("socks5://1.2.3.4:8080".toList)).2.1
    ("1.2.3.4:8080".toList) (by decide)
  exact ⟨by decide, h⟩

/-! ## Claim C4: dead-ledger retention on load -/

/-- Case analysis of a single load step: a blank or comment line changes
nothing, a too-old line only bumps the dropped counter, and every other
content line inserts its address into the set, the timestamp map and the
rewrite buffer. -/
theorem processDeadLine_eq (iso : List Char → Option Int) (now : Int) (nowText : List Char)
    (st : DeadLoadState) (rawLine : List Char) :
    (deadLineAddr rawLine = none ∧ processDeadLine iso now nowText st rawLine = st) ∨
    (deadLineIsOld iso now rawLine = true ∧
      processDeadLine iso now nowText st rawLine = { st with oldCount := st.oldCount + 1 } ∧
      ∃ addr, deadLineAddr rawLine = some addr) ∨
    (∃ addr d ts, deadLineAddr rawLine = some addr ∧
      processDeadLine iso now nowText st rawLine =
        { st with
            dead_proxies := insert addr st.dead_proxies
            dead_proxies_with_dates := (addr, d) :: st.dead_proxies_with_dates
            validEntries := st.validEntries ++ [(addr, ts)] }) := by
  by_cases hcond : (pyStrip rawLine = [] ∨ startsWithChars ['#'] (pyStrip rawLine) = true)
  · left
    constructor <;> simp [deadLineAddr, processDeadLine, hcond]
  · rcases hsp : splitFirstChar ',' (pyStrip rawLine) with _ | pr
    · right; right
      refine ⟨pyStrip rawLine, now, nowText, ?_, ?_⟩ <;>
        simp [deadLineAddr, processDeadLine, hcond, hsp]
    · rcases hiso : iso pr.2 with _ | t
      · right; right
        refine ⟨pr.1, now, nowText, ?_, ?_⟩ <;>
          simp [deadLineAddr, processDeadLine, hcond, hsp, hiso]
      · by_cases hcut : retentionCutoff now ≤ t
        · right; right
          refine ⟨pr.1, t, pr.2, ?_, ?_⟩ <;>
            simp [deadLineAddr, processDeadLine, hcond, hsp, hiso, hcut]
        · right; left
          have hlt : t < retentionCutoff now := by omega
          refine ⟨?_, ?_, pr.1, ?_⟩ <;>
            simp [deadLineIsOld, deadLineAddr, processDeadLine, hcond, hsp, hiso, hcut, hlt]

/-- A too-old line only bumps the dropped counter. -/
theorem processDeadLine_old (iso : List Char → Option Int) (now : Int) (nowText : List Char)
    (st : DeadLoadState) (rawLine : List Char)
    (h : deadLineIsOld iso now rawLine = true) :
    processDeadLine iso now nowText st rawLine = { st with oldCount := st.oldCount + 1 } := by
  by_cases hcond : (pyStrip rawLine = [] ∨ startsWithChars ['#'] (pyStrip rawLine) = true)
  · exfalso
    simp [deadLineIsOld, hcond] at h
  · rcases hsp : splitFirstChar ',' (pyStrip rawLine) with _ | pr
    · exfalso
      simp [deadLineIsOld, hcond, hsp] at h
    · rcases hiso : iso pr.2 with _ | t
      · exfalso
        simp [deadLineIsOld, hcond, hsp, hiso] at h
      · have hlt : t < retentionCutoff now := by
          simpa [deadLineIsOld, hcond, hsp, hiso] using h
        have hcut : ¬ retentionCutoff now ≤ t := by omega
        simp [processDeadLine, hcond, hsp, hiso, hcut]

/-- A legacy line — content without a parseable timestamp — is kept and
assigned the current instant. -/
theorem processDeadLine_legacy (iso : List Char → Option Int) (now : Int) (nowText : List Char)
    (st : DeadLoadState) (rawLine : List Char) (addr : List Char)
    (ha : deadLineAddr rawLine = some addr)
    (h : deadLineIsLegacy iso rawLine = true) :
    processDeadLine iso now nowText st rawLine =
      { st with
          dead_proxies := insert addr st.dead_proxies
          dead_proxies_with_dates := (addr, now) :: st.dead_proxies_with_dates
          validEntries := st.validEntries ++ [(addr, nowText)] } := by
  by_cases hcond : (pyStrip rawLine = [] ∨ startsWithChars ['#'] (pyStrip rawLine) = true)
  · exfalso
    simp [deadLineIsLegacy, hcond] at h
  · rcases hsp : splitFirstChar ',' (pyStrip rawLine) with _ | pr
    · have ha' : pyStrip rawLine = addr := by
        simpa [deadLineAddr, hcond, hsp] using ha
      rw [← ha']
      simp [processDeadLine, hcond, hsp]
    · have hiso : iso pr.2 = none := by
        have h' := h
        simp [deadLineIsLegacy, hcond, hsp, Option.isNone_iff_eq_none] at h'
        exact h'
      have ha' : pr.1 = addr := by
        simpa [deadLineAddr, hcond, hsp] using ha
      simp [processDeadLine, hcond, hsp, hiso, ha']

/-- One load step can only grow the set, the timestamp map, the rewrite
buffer and the dropped counter. -/
theorem processDeadLine_mono (iso : List Char → Option Int) (now : Int) (nowText : List Char)
    (st : DeadLoadState) (rawLine : List Char) :
    st.dead_proxies ⊆ (processDeadLine iso now nowText st rawLine).dead_proxies ∧
    (∀ e ∈ st.validEntries, e ∈ (processDeadLine iso now nowText st rawLine).validEntries) ∧
    (∀ e ∈ st.dead_proxies_with_dates,
      e ∈ (processDeadLine iso now nowText st rawLine).dead_proxies_with_dates) ∧
    st.oldCount ≤ (processDeadLine iso now nowText st rawLine).oldCount := by
  rcases processDeadLine_eq iso now nowText st rawLine with ⟨-, heq⟩ | ⟨-, heq, -⟩ |
    ⟨addr, d, ts, -, heq⟩ <;> rw [heq]
  · exact ⟨subset_rfl, fun e he => he, fun e he => he, le_rfl⟩
  · exact ⟨subset_rfl, fun e he => he, fun e he => he, Nat.le_succ _⟩
  · exact ⟨Finset.subset_insert _ _, fun e he => List.mem_append_left _ he,
      fun e he => List.mem_cons_of_mem _ he, le_rfl⟩

/-- Folding the load over any line list only grows the accumulated state. -/
theorem load_foldl_mono (iso : List Char → Option Int) (now : Int) (nowText : List Char) :
    ∀ (lines : List (List Char)) (st : DeadLoadState),
      st.dead_proxies ⊆ (lines.foldl (processDeadLine iso now nowText) st).dead_proxies ∧
      (∀ e ∈ st.validEntries,
        e ∈ (lines.foldl (processDeadLine iso now nowText) st).validEntries) ∧
      (∀ e ∈ st.dead_proxies_with_dates,
        e ∈ (lines.foldl (processDeadLine iso now nowText) st).dead_proxies_with_dates) ∧
      st.oldCount ≤ (lines.foldl (processDeadLine iso now nowText) st).oldCount := by
  intro lines
  induction lines with
  | nil =>
    intro st
    exact ⟨subset_rfl, fun e he => he, fun e he => he, le_rfl⟩
  | cons l rest ih =>
    intro st
    rw [List.foldl_cons]
    obtain ⟨h1, h2, h3, h4⟩ := processDeadLine_mono iso now nowText st l
    obtain ⟨g1, g2, g3, g4⟩ := ih (processDeadLine iso now nowText st l)
    exact ⟨h1.trans g1, fun e he => g2 e (h2 e he), fun e he => g3 e (h3 e he), h4.trans g4⟩

/-- An address contributed by no processed line never appears in the set or
the rewrite buffer. -/
theorem load_foldl_avoids (iso : List Char → Option Int) (now : Int) (nowText : List Char)
    (addr : List Char) :
    ∀ (lines : List (List Char)) (st : DeadLoadState),
      (∀ l ∈ lines, deadLineAddr l ≠ some addr) →
      addr ∉ st.dead_proxies →
      (∀ e ∈ st.validEntries, e.1 ≠ addr) →
      addr ∉ (lines.foldl (processDeadLine iso now nowText) st).dead_proxies ∧
      (∀ e ∈ (lines.foldl (processDeadLine iso now nowText) st).validEntries, e.1 ≠ addr) := by
  intro lines
  induction lines with
  | nil =>
    intro st h hd hv
    exact ⟨hd, hv⟩
  | cons l rest ih =>
    intro st h hd hv
    rw [List.foldl_cons]
    have hrest : ∀ x ∈ rest, deadLineAddr x ≠ some addr :=
      fun x hx => h x (List.mem_cons_of_mem _ hx)
    have hl : deadLineAddr l ≠ some addr := h l (List.mem_cons_self l rest)
    rcases processDeadLine_eq iso now nowText st l with ⟨-, heq⟩ | ⟨-, heq, -⟩ |
      ⟨b, d, ts, hb, heq⟩ <;> rw [heq]
    · exact ih st hrest hd hv
    · exact ih _ hrest hd hv
    · have hba : b ≠ addr := by
        intro hba
        exact hl (by rw [hb, hba])
      apply ih
      · exact hrest
      · intro hmem
        rcases Finset.mem_insert.mp hmem with heq2 | hmem2
        · exact hba heq2.symm
        · exact hd hmem2
      · intro e he
        rcases List.mem_append.mp he with he | he
        · exact hv e he
        · have he' : e = (b, ts) := by simpa using he
          rw [he']
          exact hba

/-- C4.  After loading the dead-proxy ledger, every persisted entry with a
timestamp older than the 30-day window is absent from both the in-memory
dead set and the rewrite buffer, the dropped count is positive so the store
is rewritten to hold exactly the surviving entries behind the header block;
and every entry with a missing or unparseable timestamp is retained with the
current instant.  The hypothesis that the persisted addresses are pairwise
distinct is the ledger's own invariant: `save_dead_proxy` appends a record
only for an address not yet present in the set. -/
theorem dead_ledger_retention (iso : List Char → Option Int) (now : Int)
    (nowText : List Char) (lines : List (List Char))
    (hnodup : (lines.filterMap deadLineAddr).Nodup) :
    (∀ line ∈ lines, deadLineIsOld iso now line = true →
      ∀ addr, deadLineAddr line = some addr →
        addr ∉ (load_dead_proxies iso now nowText lines).dead_proxies ∧
        (∀ e ∈ (load_dead_proxies iso now nowText lines).validEntries, e.1 ≠ addr) ∧
        0 < (load_dead_proxies iso now nowText lines).oldCount ∧
        deadFileAfterLoad iso now nowText lines =
          deadFileHeader nowText ++
            (load_dead_proxies iso now nowText lines).validEntries.map
              (fun e => e.1 ++ (',' :: e.2))) ∧
    (∀ line ∈ lines, deadLineIsLegacy iso line = true →
      ∀ addr, deadLineAddr line = some addr →
        addr ∈ (load_dead_proxies iso now nowText lines).dead_proxies ∧
        (addr, nowText) ∈ (load_dead_proxies iso now nowText lines).validEntries ∧
        (addr, now) ∈ (load_dead_proxies iso now nowText lines).dead_proxies_with_dates) := by
  constructor
  · intro line hmem hold addr haddr
    obtain ⟨s, t, rfl⟩ := List.append_of_mem hmem
    have hsplit : load_dead_proxies iso now nowText (s ++ line :: t)
        = t.foldl (processDeadLine iso now nowText)
            (processDeadLine iso now nowText
              (s.foldl (processDeadLine iso now nowText) ⟨∅, [], [], 0⟩) line) := by
      unfold load_dead_proxies
      rw [List.foldl_append, List.foldl_cons]
    set st₁ := s.foldl (processDeadLine iso now nowText)
      (⟨∅, [], [], 0⟩ : DeadLoadState) with hst₁
    have hstep := processDeadLine_old iso now nowText st₁ line hold
    have hfm : (s ++ line :: t).filterMap deadLineAddr
        = s.filterMap deadLineAddr ++ addr :: t.filterMap deadLineAddr := by
      rw [List.filterMap_append, List.filterMap_cons_some haddr]
    rw [hfm] at hnodup
    obtain ⟨-, hcons, hdisj⟩ := List.nodup_append.mp hnodup
    have haddr_t : addr ∉ t.filterMap deadLineAddr := (List.nodup_cons.mp hcons).1
    have haddr_s : addr ∉ s.filterMap deadLineAddr := fun hmem2 =>
      (hdisj hmem2) (List.mem_cons_self _ _)
    have hs_lines : ∀ l' ∈ s, deadLineAddr l' ≠ some addr := by
      intro l' hl' hcontra
      exact haddr_s (List.mem_filterMap.mpr ⟨l', hl', hcontra⟩)
    have ht_lines : ∀ l' ∈ t, deadLineAddr l' ≠ some addr := by
      intro l' hl' hcontra
      exact haddr_t (List.mem_filterMap.mpr ⟨l', hl', hcontra⟩)
    have hinit := load_foldl_avoids iso now nowText addr s
      (⟨∅, [], [], 0⟩ : DeadLoadState) hs_lines (by simp) (by simp)
    rw [← hst₁] at hinit
    have hfinal := load_foldl_avoids iso now nowText addr t
      { st₁ with oldCount := st₁.oldCount + 1 } ht_lines hinit.1 hinit.2
    have hload : load_dead_proxies iso now nowText (s ++ line :: t)
        = t.foldl (processDeadLine iso now nowText)
            { st₁ with oldCount := st₁.oldCount + 1 } := by
      rw [hsplit, hstep]
    have hcount := (load_foldl_mono iso now nowText t
      { st₁ with oldCount := st₁.oldCount + 1 }).2.2.2
    simp only [] at hcount
    have hpos : 0 < (load_dead_proxies iso now nowText (s ++ line :: t)).oldCount := by
      rw [hload]
      omega
    refine ⟨?_, ?_, hpos, ?_⟩
    · rw [hload]
      exact hfinal.1
    · rw [hload]
      exact hfinal.2
    · have hne0 : ¬ (load_dead_proxies iso now nowText (s ++ line :: t)).oldCount = 0 := by
        omega
      simp [deadFileAfterLoad, hne0]
  · intro line hmem hleg addr haddr
    obtain ⟨s, t, rfl⟩ := List.append_of_mem hmem
    have hsplit : load_dead_proxies iso now nowText (s ++ line :: t)
        = t.foldl (processDeadLine iso now nowText)
            (processDeadLine iso now nowText
              (s.foldl (processDeadLine iso now nowText) ⟨∅, [], [], 0⟩) line) := by
      unfold load_dead_proxies
      rw [List.foldl_append, List.foldl_cons]
    set st₁ := s.foldl (processDeadLine iso now nowText)
      (⟨∅, [], [], 0⟩ : DeadLoadState) with hst₁
    have hstep := processDeadLine_legacy iso now nowText st₁ line addr haddr hleg
    have key := load_foldl_mono iso now nowText t
      { st₁ with
          dead_proxies := insert addr st₁.dead_proxies
          dead_proxies_with_dates := (addr, now) :: st₁.dead_proxies_with_dates
          validEntries := st₁.validEntries ++ [(addr, nowText)] }
    refine ⟨?_, ?_, ?_⟩ <;> rw [hsplit, hstep]
    · exact key.1 (Finset.mem_insert_self _ _)
    · exact key.2.1 _ (List.mem_append_right _ (by simp))
    · exact key.2.2.1 _ (List.mem_cons_self _ _)

/-- Witness for C4 at a concrete two-line ledger with one fresh and one
too-old entry, with a concrete timestamp parser. -/
theorem dead_ledger_retention_witness :
    "2.2.2.2:80".toList ∉ (load_dead_proxies
      (fun s => if s = "9000000".toList then some 9000000
        else if s = "1".toList then some 1 else none)
      10000000 "NOW".toList
      ["1.1.1.1:80,9000000".toList, "2.2.2.2:80,1".toList]).dead_proxies ∧
    0 < (load_dead_proxies
      (fun s => if s = "9000000".toList then some 9000000
        else if s = "1".toList then some 1 else none)
      10000000 "NOW".toList
      ["1.1.1.1:80,9000000".toList, "2.2.2.2:80,1".toList]).oldCount := by
  have h := (dead_ledger_retention
    (fun s => if s = "9000000".toList then some 9000000
      else if s = "1".toList then some 1 else none)
    10000000 "NOW".toList
    ["1.1.1.1:80,9000000".toList, "2.2.2.2:80,1".toList]
    (by decide)).1 ("2.2.2.2:80,1".toList) (by decide) (by decide)
    ("2.2.2.2:80".toList) (by decide)
  exact ⟨h.1, h.2.2.1⟩

end Validity
